import Mathlib

/-!
Verification of a Docker-to-CloudWatch log forwarder (`main.py`).

The program has three parts:

* `CloudWatchLogger` — a sink client: `create_or_get_log_group` /
  `create_or_get_log_stream` (both suppress only the already-exists
  rejection) and `send_logs_to_cloudwatch` (catches only a missing
  credentials error, printing a message and exiting with status 1).
* `DockerRunner.run_container` — launches a detached container running
  `["bash", "-c", "python -u -c '<command>'"]` with stdout/stderr capture.
* `DockerCloudWatchLogger.run_container_and_log` — ensures group and
  stream, starts the container, then for each chunk of the log stream
  decodes it as UTF-8, splits it with `str.splitlines`, and makes one
  `put_log_events` call; a `KeyboardInterrupt` stops the container and
  returns normally.

The embedding below models text as `List Char`, byte chunks as
`List Nat`, and the observable behaviour of one run as a list of events
together with a run result.
-/

/-- The characters `str.splitlines` treats as line boundaries:
LF, VT, FF, CR, FS, GS, RS, NEL, LINE SEPARATOR, PARAGRAPH SEPARATOR. -/
def isLineBreak (c : Char) : Bool :=
  c.toNat == 0x0a || c.toNat == 0x0b || c.toNat == 0x0c || c.toNat == 0x0d ||
    c.toNat == 0x1c || c.toNat == 0x1d || c.toNat == 0x1e || c.toNat == 0x85 ||
    c.toNat == 0x2028 || c.toNat == 0x2029

/-- Carriage return. -/
def crChar : Char := Char.ofNat 0x0d

/-- Line feed. -/
def lfChar : Char := Char.ofNat 0x0a

/-- Replace each CR-LF pair by a single LF.  Since `str.splitlines`
treats CR-LF as one boundary and a lone LF as one boundary, this
normalisation preserves the split. -/
def stripCrlf : List Char → List Char
  | [] => []
  | [c] => [c]
  | c :: d :: rest =>
    if c = crChar ∧ d = lfChar then lfChar :: stripCrlf rest
    else c :: stripCrlf (d :: rest)

/-- Prepend a character to the first line of a split result. -/
def consHead (c : Char) : List (List Char) → List (List Char)
  | [] => [[c]]
  | l :: ls => (c :: l) :: ls

/-- Split on single line-boundary characters, dropping the boundary
characters; a trailing segment with no boundary becomes a line of its
own, and the empty text yields no lines. -/
def splitAtBreaks : List Char → List (List Char)
  | [] => []
  | c :: rest =>
    if isLineBreak c then [] :: splitAtBreaks rest
    else consHead c (splitAtBreaks rest)

/-- Python's `str.splitlines` on the decoded chunk text. -/
def splitlines (s : List Char) : List (List Char) :=
  splitAtBreaks (stripCrlf s)

/-- Strict UTF-8 decoding, as `bytes.decode("utf-8")`: rejects stray
continuation bytes, overlong encodings, surrogates and code points above
U+10FFFF.  Returns `none` exactly when Python raises
`UnicodeDecodeError`. -/
def utf8Decode : List Nat → Option (List Char)
  | [] => some []
  | b :: rest =>
    if b ≤ 0x7f then
      (utf8Decode rest).map (fun cs => Char.ofNat b :: cs)
    else if b ≤ 0xc1 then none
    else if b ≤ 0xdf then
      match rest with
      | [] => none
      | b1 :: rest1 =>
        if 0x80 ≤ b1 ∧ b1 ≤ 0xbf then
          (utf8Decode rest1).map
            (fun cs => Char.ofNat ((b - 0xc0) * 0x40 + (b1 - 0x80)) :: cs)
        else none
    else if b ≤ 0xef then
      match rest with
      | b1 :: b2 :: rest2 =>
        if (0x80 ≤ b1 ∧ b1 ≤ 0xbf) ∧ (0x80 ≤ b2 ∧ b2 ≤ 0xbf) ∧
            (b = 0xe0 → 0xa0 ≤ b1) ∧ (b = 0xed → b1 ≤ 0x9f) then
          (utf8Decode rest2).map
            (fun cs => Char.ofNat
              ((b - 0xe0) * 0x1000 + (b1 - 0x80) * 0x40 + (b2 - 0x80)) :: cs)
        else none
      | _ => none
    else if b ≤ 0xf4 then
      match rest with
      | b1 :: b2 :: b3 :: rest3 =>
        if (0x80 ≤ b1 ∧ b1 ≤ 0xbf) ∧ (0x80 ≤ b2 ∧ b2 ≤ 0xbf) ∧
            (0x80 ≤ b3 ∧ b3 ≤ 0xbf) ∧
            (b = 0xf0 → 0x90 ≤ b1) ∧ (b = 0xf4 → b1 ≤ 0x8f) then
          (utf8Decode rest3).map
            (fun cs => Char.ofNat
              ((b - 0xf0) * 0x40000 + (b1 - 0x80) * 0x1000 +
                (b2 - 0x80) * 0x40 + (b3 - 0x80)) :: cs)
        else none
      | _ => none
    else none

/-- Decode every chunk of a chunk list; `none` if any chunk is invalid. -/
def decodeAll : List (List Nat) → Option (List (List Char))
  | [] => some []
  | c :: rest =>
    match utf8Decode c, decodeAll rest with
    | some t, some ts => some (t :: ts)
    | _, _ => none

/-- Rejections the CloudWatch Logs control plane can return to a
creation call: the already-exists exception that the wrappers suppress,
or any other error, carried with its message. -/
inductive ApiError
  | resourceAlreadyExists
  | other (msg : String)
deriving DecidableEq

/-- `CloudWatchLogger.create_or_get_log_group`: forwards the underlying
`create_log_group` outcome, turning only `ResourceAlreadyExistsException`
into success. -/
def create_or_get_log_group (api : Except ApiError Unit) : Except ApiError Unit :=
  match api with
  | Except.error ApiError.resourceAlreadyExists => Except.ok ()
  | Except.error (ApiError.other m) => Except.error (ApiError.other m)
  | Except.ok u => Except.ok u

/-- `CloudWatchLogger.create_or_get_log_stream`: same suppression of the
already-exists rejection for `create_log_stream`. -/
def create_or_get_log_stream (api : Except ApiError Unit) : Except ApiError Unit :=
  match api with
  | Except.error ApiError.resourceAlreadyExists => Except.ok ()
  | Except.error (ApiError.other m) => Except.error (ApiError.other m)
  | Except.ok u => Except.ok u

/-- The remote sink's name registry: which log groups and which
(group, stream) pairs exist. -/
structure CWState where
  groups : List String
  streams : List (String × String)
deriving DecidableEq

/-- The service side of `create_log_group`: rejects with
`ResourceAlreadyExistsException` when the group exists, otherwise
records it. -/
def create_log_group_api (st : CWState) (g : String) :
    Except ApiError Unit × CWState :=
  if g ∈ st.groups then (Except.error ApiError.resourceAlreadyExists, st)
  else (Except.ok (), { st with groups := g :: st.groups })

/-- The service side of `create_log_stream`. -/
def create_log_stream_api (st : CWState) (g s : String) :
    Except ApiError Unit × CWState :=
  if (g, s) ∈ st.streams then (Except.error ApiError.resourceAlreadyExists, st)
  else (Except.ok (), { st with streams := (g, s) :: st.streams })

/-- `create_or_get_log_group` run against the service model
(the spec's `ensure_collection`). -/
def ensure_collection (st : CWState) (g : String) :
    Except ApiError Unit × CWState :=
  let r := create_log_group_api st g
  (create_or_get_log_group r.1, r.2)

/-- `create_or_get_log_stream` run against the service model
(the spec's `ensure_substream`). -/
def ensure_substream (st : CWState) (g s : String) :
    Except ApiError Unit × CWState :=
  let r := create_log_stream_api st g s
  (create_or_get_log_stream r.1, r.2)

/-- Outcome of one `put_log_events` call as the wrapper observes it. -/
inductive AppendResult
  | ok
  | noCredentials
  | sinkError
deriving DecidableEq

/-- Observable actions of one run. -/
inductive Event
  | createLogGroup (group : String)
  | createLogStream (group stream : String)
  | runContainer
  | putLogEvents (group stream : String) (messages : List (List Char))
  | printMsg (msg : String)
  | containerStop
deriving DecidableEq

/-- How the run ends at the process level. -/
inductive RunResult
  | normal
  | interrupted
  | fatalAuth
  | uncaughtSink
  | uncaughtDecode
  | uncaughtSetup
deriving DecidableEq

/-- Process exit status for each run result: a handled
`KeyboardInterrupt` and a natural end of stream exit 0; `exit(1)` and an
uncaught exception exit 1. -/
def exitCode : RunResult → Nat
  | RunResult.normal => 0
  | RunResult.interrupted => 0
  | RunResult.fatalAuth => 1
  | RunResult.uncaughtSink => 1
  | RunResult.uncaughtDecode => 1
  | RunResult.uncaughtSetup => 1

/-- Message printed on `KeyboardInterrupt`. -/
def interruptNotice : String := "Interrupted. Stopping the container..."

/-- Message printed on `NoCredentialsError`. -/
def credsNotice : String := "AWS credentials are invalid."

/-- `CloudWatchLogger.send_logs_to_cloudwatch`: makes the
`put_log_events` call; on `NoCredentialsError` prints a message and
exits with status 1; any other failure propagates as an uncaught
exception; otherwise returns normally. -/
def send_logs_to_cloudwatch (group stream : String) (log_lines : List (List Char))
    (r : AppendResult) : List Event × Option RunResult :=
  match r with
  | AppendResult.ok =>
      ([Event.putLogEvents group stream log_lines], none)
  | AppendResult.noCredentials =>
      ([Event.putLogEvents group stream log_lines, Event.printMsg credsNotice],
        some RunResult.fatalAuth)
  | AppendResult.sinkError =>
      ([Event.putLogEvents group stream log_lines], some RunResult.uncaughtSink)

/-- One run's environment: the byte chunks the container's log stream
yields before exiting, the pull index (if any) at which a
`KeyboardInterrupt` arrives, the outcome of each successive
`put_log_events` call, and the control-plane outcomes of the two
creation calls. -/
structure Env where
  chunks : List (List Nat)
  interruptAt : Option Nat
  appendResult : Nat → AppendResult
  groupApi : Except ApiError Unit
  streamApi : Except ApiError Unit

/-- Trace and result of a handled `KeyboardInterrupt`: print the notice,
stop the container, return normally. -/
def interruptedResult : List Event × RunResult :=
  ([Event.printMsg interruptNotice, Event.containerStop], RunResult.interrupted)

/-- The `for log_line in container.logs(...)` loop of
`run_container_and_log`: at each pull either a `KeyboardInterrupt` is
observed (handled: notice, `container.stop()`, normal return) or the
next chunk is delivered; the chunk is decoded as UTF-8 (an invalid
chunk raises an uncaught `UnicodeDecodeError`), split with
`splitlines`, and sent via `send_logs_to_cloudwatch`; the stream ending
exits the loop normally.  `p` counts pulls, `a` counts append calls. -/
def forwardLoop (env : Env) (group stream : String) :
    List (List Nat) → Nat → Nat → List Event × RunResult
  | [], p, _ =>
    if env.interruptAt = some p then interruptedResult
    else ([], RunResult.normal)
  | chunk :: rest, p, a =>
    if env.interruptAt = some p then interruptedResult
    else
      match utf8Decode chunk with
      | none => ([], RunResult.uncaughtDecode)
      | some text =>
        let call := send_logs_to_cloudwatch group stream (splitlines text)
          (env.appendResult a)
        match call.2 with
        | some r => (call.1, r)
        | none =>
          let k := forwardLoop env group stream rest (p + 1) (a + 1)
          (call.1 ++ k.1, k.2)

/-- `DockerCloudWatchLogger.run_container_and_log`: create-or-get the
group, then the stream (a non-suppressed rejection propagates), start
the container, then run the forwarding loop. -/
def run_container_and_log (env : Env) (group stream : String) :
    List Event × RunResult :=
  match create_or_get_log_group env.groupApi with
  | Except.error _ => ([Event.createLogGroup group], RunResult.uncaughtSetup)
  | Except.ok _ =>
    match create_or_get_log_stream env.streamApi with
    | Except.error _ =>
        ([Event.createLogGroup group, Event.createLogStream group stream],
          RunResult.uncaughtSetup)
    | Except.ok _ =>
      let r := forwardLoop env group stream env.chunks 0 0
      (Event.createLogGroup group :: Event.createLogStream group stream ::
        Event.runContainer :: r.1, r.2)

/-- The container-run request `DockerRunner.run_container` issues. -/
structure ContainerRunCall where
  image : String
  command : List String
  detach : Bool
  stdout : Bool
  stderr : Bool
deriving DecidableEq

/-- A single-quote character, as a string. -/
def apos : String := String.singleton (Char.ofNat 39)

/-- `DockerRunner.run_container`: a detached run of the image with
stdout and stderr capture, whose argv is
`["bash", "-c", "python -u -c '<bash_command>'"]`, the command
interpolated verbatim by the f-string. -/
def run_container (docker_image bash_command : String) : ContainerRunCall :=
  { image := docker_image
  , command := ["bash", "-c", "python -u -c " ++ apos ++ bash_command ++ apos]
  , detach := true
  , stdout := true
  , stderr := true }

/-- The sequence of `put_log_events` batches in a trace, in order. -/
def appendCalls : List Event → List (List (List Char))
  | [] => []
  | Event.putLogEvents _ _ ls :: t => ls :: appendCalls t
  | Event.createLogGroup _ :: t => appendCalls t
  | Event.createLogStream _ _ :: t => appendCalls t
  | Event.runContainer :: t => appendCalls t
  | Event.printMsg _ :: t => appendCalls t
  | Event.containerStop :: t => appendCalls t

/-- Prepend a break-free segment to the first line of a split. -/
def consLine (u : List Char) : List (List Char) → List (List Char)
  | [] => if u = [] then [] else [u]
  | l :: ls => (u ++ l) :: ls

/-- A healthy environment delivering the chunks of the spec's two-chunk
scenario, with every append accepted and no interrupt. -/
def envW1 : Env :=
  { chunks := [[0x61, 0x0a], [0x62, 0x0a, 0x63, 0x0a]]
  , interruptAt := none
  , appendResult := fun _ => AppendResult.ok
  , groupApi := Except.ok ()
  , streamApi := Except.ok () }

/-- Two chunks, the first append failing with a non-credentials error. -/
def envW3 : Env :=
  { chunks := [[0x61, 0x0a], [0x62, 0x0a]]
  , interruptAt := none
  , appendResult := fun i => if i = 0 then AppendResult.sinkError else AppendResult.ok
  , groupApi := Except.ok ()
  , streamApi := Except.ok () }

/-- Two chunks, the first append rejected for missing credentials. -/
def envW4 : Env :=
  { chunks := [[0x61, 0x0a], [0x62, 0x0a]]
  , interruptAt := none
  , appendResult := fun i =>
      if i = 0 then AppendResult.noCredentials else AppendResult.ok
  , groupApi := Except.ok ()
  , streamApi := Except.ok () }

/-- A `KeyboardInterrupt` at the very first pull, with a chunk still
unread in the stream. -/
def envW5 : Env :=
  { chunks := [[0x61]]
  , interruptAt := some 0
  , appendResult := fun _ => AppendResult.ok
  , groupApi := Except.ok ()
  , streamApi := Except.ok () }

/-- A logical line split across two chunks: `b"a"` then `b"b\n"`. -/
def envW6 : Env :=
  { chunks := [[0x61], [0x62, 0x0a]]
  , interruptAt := none
  , appendResult := fun _ => AppendResult.ok
  , groupApi := Except.ok ()
  , streamApi := Except.ok () }

/-- An empty stream with healthy setup calls. -/
def envW7 : Env :=
  { chunks := []
  , interruptAt := none
  , appendResult := fun _ => AppendResult.ok
  , groupApi := Except.ok ()
  , streamApi := Except.ok () }

/-- A single chunk holding only the first byte of a two-byte UTF-8
character, as when a multibyte character straddles a chunk boundary. -/
def envW9 : Env :=
  { chunks := [[0xc3]]
  , interruptAt := none
  , appendResult := fun _ => AppendResult.ok
  , groupApi := Except.ok ()
  , streamApi := Except.ok () }

lemma isLineBreak_cr : isLineBreak crChar = true := by decide

lemma isLineBreak_lf : isLineBreak lfChar = true := by decide

lemma ne_cr_of_not_break {x : Char} (h : isLineBreak x = false) : x ≠ crChar :=
  fun hx => absurd (hx ▸ h) (by decide)

lemma ne_lf_of_not_break {x : Char} (h : isLineBreak x = false) : x ≠ lfChar :=
  fun hx => absurd (hx ▸ h) (by decide)

lemma stripCrlf_cons (x : Char) (l : List Char)
    (h : x ≠ crChar ∨ l.head? ≠ some lfChar) :
    stripCrlf (x :: l) = x :: stripCrlf l := by
  cases l with
  | nil => rfl
  | cons d r =>
    have hne : ¬(x = crChar ∧ d = lfChar) := by
      rcases h with h | h
      · exact fun hc => h hc.1
      · exact fun hc => h (by simp [hc.2])
    simp [stripCrlf, hne]

lemma stripCrlf_nobreak (l : List Char)
    (h : ∀ x ∈ l, isLineBreak x = false) : stripCrlf l = l := by
  induction l with
  | nil => rfl
  | cons x t ih =>
    have hx : x ≠ crChar := ne_cr_of_not_break (h x (by simp))
    rw [stripCrlf_cons x t (Or.inl hx), ih (fun y hy => h y (by simp [hy]))]

lemma stripCrlf_nobreak_lf (v : List Char)
    (h : ∀ x ∈ v, isLineBreak x = false) :
    stripCrlf (v ++ [lfChar]) = v ++ [lfChar] := by
  induction v with
  | nil => rfl
  | cons x t ih =>
    have hx : x ≠ crChar := ne_cr_of_not_break (h x (by simp))
    rw [List.cons_append, stripCrlf_cons x (t ++ [lfChar]) (Or.inl hx),
      ih (fun y hy => h y (by simp [hy]))]

lemma stripCrlf_mid_break (u : List Char) (c : Char) (v : List Char)
    (hu : ∀ x ∈ u, isLineBreak x = false)
    (hv : ∀ x ∈ v, isLineBreak x = false) (hvne : v ≠ []) :
    stripCrlf (u ++ c :: v) = u ++ c :: v := by
  induction u with
  | nil =>
    cases v with
    | nil => exact absurd rfl hvne
    | cons y v2 =>
      have hy : y ≠ lfChar := ne_lf_of_not_break (hv y (by simp))
      rw [List.nil_append, stripCrlf_cons c (y :: v2) (Or.inr (by simp [hy])),
        stripCrlf_nobreak (y :: v2) hv]
  | cons x t ih =>
    have hx : x ≠ crChar := ne_cr_of_not_break (hu x (by simp))
    rw [List.cons_append, stripCrlf_cons x (t ++ c :: v) (Or.inl hx),
      ih (fun y hy => hu y (by simp [hy]))]

lemma splitAtBreaks_nobreak (l : List Char)
    (h : ∀ x ∈ l, isLineBreak x = false) :
    splitAtBreaks l = if l = [] then [] else [l] := by
  induction l with
  | nil => rfl
  | cons x t ih =>
    have hx : isLineBreak x = false := h x (by simp)
    rw [splitAtBreaks, if_neg (by simp [hx]), ih (fun y hy => h y (by simp [hy]))]
    cases t with
    | nil => rfl
    | cons y t2 => simp [consHead]

lemma splitAtBreaks_append (u w : List Char)
    (h : ∀ x ∈ u, isLineBreak x = false) :
    splitAtBreaks (u ++ w) = consLine u (splitAtBreaks w) := by
  induction u with
  | nil =>
    cases hw : splitAtBreaks w with
    | nil => simp [consLine, hw]
    | cons l ls => simp [consLine, hw]
  | cons x t ih =>
    have hx : isLineBreak x = false := h x (by simp)
    rw [List.cons_append, splitAtBreaks, if_neg (by simp [hx]),
      ih (fun y hy => h y (by simp [hy]))]
    cases hw : splitAtBreaks w with
    | nil =>
      by_cases ht : t = []
      · subst ht; simp [consLine, consHead]
      · simp [consLine, ht, consHead]
    | cons l ls => simp [consLine, consHead]

lemma splitlines_nobreak (w : List Char) (hne : w ≠ [])
    (h : ∀ x ∈ w, isLineBreak x = false) : splitlines w = [w] := by
  rw [splitlines, stripCrlf_nobreak w h, splitAtBreaks_nobreak w h, if_neg hne]

lemma splitlines_line (v : List Char)
    (h : ∀ x ∈ v, isLineBreak x = false) :
    splitlines (v ++ [lfChar]) = [v] := by
  rw [splitlines, stripCrlf_nobreak_lf v h, splitAtBreaks_append v [lfChar] h]
  simp [splitAtBreaks, consLine, isLineBreak_lf]

lemma splitlines_mid_break (u : List Char) (c : Char) (v : List Char)
    (hu : ∀ x ∈ u, isLineBreak x = false)
    (hv : ∀ x ∈ v, isLineBreak x = false) (hvne : v ≠ [])
    (hc : isLineBreak c = true) :
    splitlines (u ++ c :: v) = [u, v] := by
  rw [splitlines, stripCrlf_mid_break u c v hu hv hvne,
    splitAtBreaks_append u (c :: v) hu, splitAtBreaks, if_pos (by simp [hc]),
    splitAtBreaks_nobreak v hv, if_neg hvne]
  simp [consLine]

lemma forwardLoop_interrupt (env : Env) (g s : String) (cs : List (List Nat))
    (p a : Nat) (h : env.interruptAt = some p) :
    forwardLoop env g s cs p a = interruptedResult := by
  cases cs with
  | nil => rw [forwardLoop, if_pos h]
  | cons c rest => rw [forwardLoop, if_pos h]

lemma forwardLoop_nil (env : Env) (g s : String) (p a : Nat)
    (h : env.interruptAt ≠ some p) :
    forwardLoop env g s [] p a = ([], RunResult.normal) := by
  rw [forwardLoop, if_neg h]

lemma forwardLoop_cons_bad (env : Env) (g s : String) (c : List Nat)
    (rest : List (List Nat)) (p a : Nat) (h : env.interruptAt ≠ some p)
    (hd : utf8Decode c = none) :
    forwardLoop env g s (c :: rest) p a = ([], RunResult.uncaughtDecode) := by
  rw [forwardLoop, if_neg h, hd]

lemma forwardLoop_cons_ok (env : Env) (g s : String) (c : List Nat)
    (rest : List (List Nat)) (p a : Nat) (t : List Char)
    (h : env.interruptAt ≠ some p) (hd : utf8Decode c = some t)
    (ha : env.appendResult a = AppendResult.ok) :
    forwardLoop env g s (c :: rest) p a =
      (Event.putLogEvents g s (splitlines t) ::
        (forwardLoop env g s rest (p + 1) (a + 1)).1,
        (forwardLoop env g s rest (p + 1) (a + 1)).2) := by
  rw [forwardLoop, if_neg h, hd]
  simp only [send_logs_to_cloudwatch, ha, List.cons_append, List.nil_append]

lemma forwardLoop_cons_auth (env : Env) (g s : String) (c : List Nat)
    (rest : List (List Nat)) (p a : Nat) (t : List Char)
    (h : env.interruptAt ≠ some p) (hd : utf8Decode c = some t)
    (ha : env.appendResult a = AppendResult.noCredentials) :
    forwardLoop env g s (c :: rest) p a =
      ([Event.putLogEvents g s (splitlines t), Event.printMsg credsNotice],
        RunResult.fatalAuth) := by
  rw [forwardLoop, if_neg h, hd]
  simp only [send_logs_to_cloudwatch, ha]

lemma forwardLoop_cons_sink (env : Env) (g s : String) (c : List Nat)
    (rest : List (List Nat)) (p a : Nat) (t : List Char)
    (h : env.interruptAt ≠ some p) (hd : utf8Decode c = some t)
    (ha : env.appendResult a = AppendResult.sinkError) :
    forwardLoop env g s (c :: rest) p a =
      ([Event.putLogEvents g s (splitlines t)], RunResult.uncaughtSink) := by
  rw [forwardLoop, if_neg h, hd]
  simp only [send_logs_to_cloudwatch, ha]

lemma decodeAll_cons {c : List Nat} {rest : List (List Nat)}
    {texts : List (List Char)} (h : decodeAll (c :: rest) = some texts) :
    ∃ t ts, utf8Decode c = some t ∧ decodeAll rest = some ts ∧ texts = t :: ts := by
  rw [decodeAll] at h
  cases hc : utf8Decode c with
  | none => rw [hc] at h; exact absurd h (by simp)
  | some t =>
    cases hr : decodeAll rest with
    | none => rw [hc, hr] at h; exact absurd h (by simp)
    | some ts =>
      rw [hc, hr] at h
      exact ⟨t, ts, rfl, rfl, by simpa using h.symm⟩

/-- Running the loop over a prefix of chunks that all decode, are all
appended successfully, and see no interrupt, emits one append event per
chunk and then continues as the loop on the remaining chunks. -/
lemma forwardLoop_front (env : Env) (g s : String) :
    ∀ (pre : List (List Nat)) (texts : List (List Char))
      (rest : List (List Nat)) (p a : Nat),
      decodeAll pre = some texts →
      (∀ j, j < pre.length → env.interruptAt ≠ some (p + j)) →
      (∀ i, i < pre.length → env.appendResult (a + i) = AppendResult.ok) →
      forwardLoop env g s (pre ++ rest) p a =
        ((texts.map fun t => Event.putLogEvents g s (splitlines t)) ++
            (forwardLoop env g s rest (p + pre.length) (a + pre.length)).1,
          (forwardLoop env g s rest (p + pre.length) (a + pre.length)).2) := by
  intro pre
  induction pre with
  | nil =>
    intro texts rest p a hD _ _
    simp only [decodeAll, Option.some.injEq] at hD
    subst hD
    simp
  | cons c pre2 ih =>
    intro texts rest p a hD hI hA
    obtain ⟨t, ts, hdc, hdr, hts⟩ := decodeAll_cons hD
    subst hts
    have hIp : env.interruptAt ≠ some p := by
      have := hI 0 (by simp)
      simpa using this
    have hap : env.appendResult a = AppendResult.ok := by
      have := hA 0 (by simp)
      simpa using this
    rw [List.cons_append, forwardLoop_cons_ok env g s c (pre2 ++ rest) p a t hIp hdc hap]
    have hI2 : ∀ j, j < pre2.length → env.interruptAt ≠ some (p + 1 + j) := by
      intro j hj
      have := hI (j + 1) (by simpa using Nat.succ_lt_succ hj)
      simpa [Nat.add_assoc, Nat.add_comm 1 j] using this
    have hA2 : ∀ i, i < pre2.length → env.appendResult (a + 1 + i) = AppendResult.ok := by
      intro i hi
      have := hA (i + 1) (by simpa using Nat.succ_lt_succ hi)
      simpa [Nat.add_assoc, Nat.add_comm 1 i] using this
    rw [ih ts rest (p + 1) (a + 1) hdr hI2 hA2]
    simp [Nat.add_assoc, Nat.add_comm 1 pre2.length]

/-- When both creation calls come back successfully (created or already
exists), the run is the two creation events, the container start, and
the forwarding loop. -/
lemma run_eq (env : Env) (g s : String)
    (hG : create_or_get_log_group env.groupApi = Except.ok ())
    (hS : create_or_get_log_stream env.streamApi = Except.ok ()) :
    run_container_and_log env g s =
      (Event.createLogGroup g :: Event.createLogStream g s ::
          Event.runContainer :: (forwardLoop env g s env.chunks 0 0).1,
        (forwardLoop env g s env.chunks 0 0).2) := by
  rw [run_container_and_log, hG, hS]

lemma appendCalls_append (l1 l2 : List Event) :
    appendCalls (l1 ++ l2) = appendCalls l1 ++ appendCalls l2 := by
  induction l1 with
  | nil => simp [appendCalls]
  | cons e t ih => cases e <;> simp [appendCalls, ih]

lemma appendCalls_map (g s : String) (texts : List (List Char)) :
    appendCalls (texts.map fun t => Event.putLogEvents g s (splitlines t)) =
      texts.map splitlines := by
  induction texts with
  | nil => simp [appendCalls]
  | cons t ts ih => simp [appendCalls, ih]

lemma containerStop_not_mem_map (g s : String) (texts : List (List Char)) :
    Event.containerStop ∉ (texts.map fun t => Event.putLogEvents g s (splitlines t)) := by
  intro h
  obtain ⟨t, _, ht⟩ := List.mem_map.mp h
  exact Event.noConfusion ht

/-- The loop never raises a decode error when every chunk is valid UTF-8. -/
lemma forwardLoop_no_decode (env : Env) (g s : String) :
    ∀ (cs : List (List Nat)) (p a : Nat),
      (∀ ch ∈ cs, utf8Decode ch ≠ none) →
      (forwardLoop env g s cs p a).2 ≠ RunResult.uncaughtDecode := by
  intro cs
  induction cs with
  | nil =>
    intro p a _
    by_cases h : env.interruptAt = some p
    · rw [forwardLoop_interrupt env g s [] p a h]; simp [interruptedResult]
    · rw [forwardLoop_nil env g s p a h]; simp
  | cons c rest ih =>
    intro p a hv
    by_cases h : env.interruptAt = some p
    · rw [forwardLoop_interrupt env g s (c :: rest) p a h]; simp [interruptedResult]
    · cases hd : utf8Decode c with
      | none => exact absurd hd (hv c (by simp))
      | some t =>
        cases ha : env.appendResult a with
        | ok =>
          rw [forwardLoop_cons_ok env g s c rest p a t h hd ha]
          exact ih (p + 1) (a + 1) (fun ch hch => hv ch (by simp [hch]))
        | noCredentials =>
          rw [forwardLoop_cons_auth env g s c rest p a t h hd ha]; simp
        | sinkError =>
          rw [forwardLoop_cons_sink env g s c rest p a t h hd ha]; simp

lemma decodeAll_length : ∀ {cs : List (List Nat)} {ts : List (List Char)},
    decodeAll cs = some ts → ts.length = cs.length := by
  intro cs
  induction cs with
  | nil => intro ts h; simp only [decodeAll, Option.some.injEq] at h; simp [← h]
  | cons c rest ih =>
    intro ts h
    obtain ⟨t, ts2, _, hr, hts⟩ := decodeAll_cons h
    subst hts
    simp [ih hr]

/-- C1: with healthy setup, no interrupt, every append accepted, and
every chunk decodable, the run makes exactly one append call per
delivered chunk, in delivery order, each carrying that chunk's lines in
order, and ends normally; with zero chunks there are zero append
calls. -/
theorem run_appends_one_call_per_chunk (env : Env) (g s : String)
    (texts : List (List Char))
    (hG : create_or_get_log_group env.groupApi = Except.ok ())
    (hS : create_or_get_log_stream env.streamApi = Except.ok ())
    (hI : env.interruptAt = none)
    (hA : ∀ i, env.appendResult i = AppendResult.ok)
    (hD : decodeAll env.chunks = some texts) :
    appendCalls (run_container_and_log env g s).1 = texts.map splitlines
    ∧ (appendCalls (run_container_and_log env g s).1).length = env.chunks.length
    ∧ (run_container_and_log env g s).2 = RunResult.normal := by
  have hfront := forwardLoop_front env g s env.chunks texts [] 0 0 hD
    (fun j _ => by simp [hI]) (fun i _ => hA (0 + i))
  rw [List.append_nil, forwardLoop_nil env g s (0 + env.chunks.length)
    (0 + env.chunks.length) (by simp [hI])] at hfront
  rw [run_eq env g s hG hS, hfront]
  refine ⟨?_, ?_, rfl⟩
  · simp [appendCalls, appendCalls_append, appendCalls_map]
  · simp [appendCalls, appendCalls_append, appendCalls_map, decodeAll_length hD]

/-- Witness for C1: the chunks `b"a\n"` and `b"b\nc\n"` produce exactly
the append calls `["a"]` then `["b", "c"]` and a normal end. -/
theorem run_appends_one_call_per_chunk_w :
    appendCalls (run_container_and_log envW1 "g" "s").1 = [[['a']], [['b'], ['c']]]
    ∧ (run_container_and_log envW1 "g" "s").2 = RunResult.normal := by
  have h := run_appends_one_call_per_chunk envW1 "g" "s"
    [['a', lfChar], ['b', lfChar, 'c', lfChar]] rfl rfl rfl (fun _ => rfl) (by decide)
  exact ⟨h.1.trans (by decide), h.2.2⟩

/-- C2: `create_or_get_log_group` / `create_or_get_log_stream` return
normally when the named resource already exists, calling either twice
with the same name errors on neither call, and any rejection other than
already-exists propagates unchanged to the caller. -/
theorem create_or_get_idempotent (st : CWState) (g s m : String) :
    (g ∈ st.groups → ensure_collection st g = (Except.ok (), st))
    ∧ (ensure_collection st g).1 = Except.ok ()
    ∧ (ensure_collection (ensure_collection st g).2 g).1 = Except.ok ()
    ∧ ((g, s) ∈ st.streams → ensure_substream st g s = (Except.ok (), st))
    ∧ (ensure_substream st g s).1 = Except.ok ()
    ∧ (ensure_substream (ensure_substream st g s).2 g s).1 = Except.ok ()
    ∧ create_or_get_log_group (Except.error (ApiError.other m)) =
        Except.error (ApiError.other m)
    ∧ create_or_get_log_stream (Except.error (ApiError.other m)) =
        Except.error (ApiError.other m) := by
  refine ⟨?_, ?_, ?_, ?_, ?_, ?_, rfl, rfl⟩
  · intro h
    simp [ensure_collection, create_log_group_api, h, create_or_get_log_group]
  · by_cases h : g ∈ st.groups <;>
      simp [ensure_collection, create_log_group_api, h, create_or_get_log_group]
  · by_cases h : g ∈ st.groups <;>
      simp [ensure_collection, create_log_group_api, h, create_or_get_log_group]
  · intro h
    simp [ensure_substream, create_log_stream_api, h, create_or_get_log_stream]
  · by_cases h : (g, s) ∈ st.streams <;>
      simp [ensure_substream, create_log_stream_api, h, create_or_get_log_stream]
  · by_cases h : (g, s) ∈ st.streams <;>
      simp [ensure_substream, create_log_stream_api, h, create_or_get_log_stream]

/-- Witness for C2: creating collection `"x"` when `"x"` already exists
returns normally and leaves the registry unchanged. -/
theorem create_or_get_idempotent_w :
    ensure_collection ⟨["x"], []⟩ "x" = (Except.ok (), ⟨["x"], []⟩) :=
  (create_or_get_idempotent ⟨["x"], []⟩ "x" "y" "m").1 (by decide)

/-- C7: with both creation calls successful, the run's trace is the
group creation, then the stream creation, then the container start,
then the loop's events — in particular every `put_log_events` event sits
at index three or later, after both creation calls and the start. -/
theorem setup_before_start_and_appends (env : Env) (g s : String)
    (hG : create_or_get_log_group env.groupApi = Except.ok ())
    (hS : create_or_get_log_stream env.streamApi = Except.ok ()) :
    (run_container_and_log env g s).1 =
      Event.createLogGroup g :: Event.createLogStream g s ::
        Event.runContainer :: (forwardLoop env g s env.chunks 0 0).1
    ∧ ∀ (i : Nat) (gg ss : String) (ls : List (List Char)),
        (run_container_and_log env g s).1.get? i =
          some (Event.putLogEvents gg ss ls) → 3 ≤ i := by
  have he := run_eq env g s hG hS
  refine ⟨by rw [he], ?_⟩
  intro i gg ss ls hget
  rw [he] at hget
  match i with
  | 0 => simp at hget
  | 1 => simp at hget
  | 2 => simp at hget
  | n + 3 => omega

/-- Witness for C7: on an empty stream with healthy setup the trace is
the two creation events followed by the container start. -/
theorem setup_before_start_and_appends_w :
    (run_container_and_log envW7 "g" "s").1 =
      Event.createLogGroup "g" :: Event.createLogStream "g" "s" ::
        Event.runContainer :: (forwardLoop envW7 "g" "s" envW7.chunks 0 0).1 :=
  (setup_before_start_and_appends envW7 "g" "s" rfl rfl).1

/-- C8: `run_container` launches a detached container from the given
image with stdout and stderr capture, and its argv is exactly
`["bash", "-c", "python -u -c '<command>'"]`, the command string
substituted verbatim with no quoting or escaping. -/
theorem run_container_argv (docker_image bash_command : String) :
    (run_container docker_image bash_command).command =
      ["bash", "-c", "python -u -c " ++ apos ++ bash_command ++ apos]
    ∧ (run_container docker_image bash_command).image = docker_image
    ∧ (run_container docker_image bash_command).detach = true
    ∧ (run_container docker_image bash_command).stdout = true
    ∧ (run_container docker_image bash_command).stderr = true :=
  ⟨rfl, rfl, rfl, rfl, rfl⟩

/-- Counterexample to C3: in `envW3` the first append fails with a
non-credentials submission error while a second chunk is still pending;
the run makes no further append call and does not end normally — the
exception is uncaught — contradicting the claim that the loop logs the
error and continues with the next chunk. -/
theorem sinkError_not_continued_cex :
    (run_container_and_log envW3 "g" "s").2 = RunResult.uncaughtSink
    ∧ appendCalls (run_container_and_log envW3 "g" "s").1 = [[['a']]]
    ∧ (run_container_and_log envW3 "g" "s").2 ≠ RunResult.normal := by
  refine ⟨by decide, by decide, by decide⟩

/-- C3 as amended: `send_logs_to_cloudwatch` catches only the
credentials error, so a transient submission failure propagates as an
uncaught exception: the failing call is the last append of the run, the
run aborts with a non-zero exit status, and the container is not
stopped. -/
theorem sinkError_aborts_run (env : Env) (g s : String)
    (pre : List (List Nat)) (c : List Nat) (rest : List (List Nat))
    (texts : List (List Char)) (t : List Char)
    (hG : create_or_get_log_group env.groupApi = Except.ok ())
    (hS : create_or_get_log_stream env.streamApi = Except.ok ())
    (hchunks : env.chunks = pre ++ c :: rest)
    (hI : env.interruptAt = none)
    (hpre : decodeAll pre = some texts)
    (hok : ∀ i, i < pre.length → env.appendResult i = AppendResult.ok)
    (hdc : utf8Decode c = some t)
    (hsink : env.appendResult pre.length = AppendResult.sinkError) :
    (run_container_and_log env g s).2 = RunResult.uncaughtSink
    ∧ appendCalls (run_container_and_log env g s).1 =
        texts.map splitlines ++ [splitlines t]
    ∧ exitCode (run_container_and_log env g s).2 = 1
    ∧ Event.containerStop ∉ (run_container_and_log env g s).1 := by
  have hfront := forwardLoop_front env g s pre texts (c :: rest) 0 0 hpre
    (fun j _ => by simp [hI]) (fun i hi => by simpa using hok i hi)
  rw [forwardLoop_cons_sink env g s c rest (0 + pre.length) (0 + pre.length) t
    (by simp [hI]) hdc (by simpa using hsink)] at hfront
  rw [run_eq env g s hG hS, hchunks, hfront]
  refine ⟨rfl, ?_, rfl, ?_⟩
  · simp [appendCalls, appendCalls_append, appendCalls_map]
  · simp [containerStop_not_mem_map]

/-- Witness for the amended C3 at the input of the counterexample. -/
theorem sinkError_aborts_run_w :
    (run_container_and_log envW3 "g" "s").2 = RunResult.uncaughtSink :=
  (sinkError_aborts_run envW3 "g" "s" [] [0x61, 0x0a] [[0x62, 0x0a]] []
    ['a', lfChar] rfl rfl rfl rfl rfl
    (fun i hi => absurd hi (by simp)) (by decide) rfl).1

/-- C4: a credentials rejection on any append call prints the
diagnostic, makes that failing call the last append of the run, and
terminates the process with exit status 1. -/
theorem auth_error_fatal (env : Env) (g s : String)
    (pre : List (List Nat)) (c : List Nat) (rest : List (List Nat))
    (texts : List (List Char)) (t : List Char)
    (hG : create_or_get_log_group env.groupApi = Except.ok ())
    (hS : create_or_get_log_stream env.streamApi = Except.ok ())
    (hchunks : env.chunks = pre ++ c :: rest)
    (hI : env.interruptAt = none)
    (hpre : decodeAll pre = some texts)
    (hok : ∀ i, i < pre.length → env.appendResult i = AppendResult.ok)
    (hdc : utf8Decode c = some t)
    (hauth : env.appendResult pre.length = AppendResult.noCredentials) :
    (run_container_and_log env g s).2 = RunResult.fatalAuth
    ∧ appendCalls (run_container_and_log env g s).1 =
        texts.map splitlines ++ [splitlines t]
    ∧ Event.printMsg credsNotice ∈ (run_container_and_log env g s).1
    ∧ exitCode (run_container_and_log env g s).2 = 1 := by
  have hfront := forwardLoop_front env g s pre texts (c :: rest) 0 0 hpre
    (fun j _ => by simp [hI]) (fun i hi => by simpa using hok i hi)
  rw [forwardLoop_cons_auth env g s c rest (0 + pre.length) (0 + pre.length) t
    (by simp [hI]) hdc (by simpa using hauth)] at hfront
  rw [run_eq env g s hG hS, hchunks, hfront]
  refine ⟨rfl, ?_, ?_, rfl⟩
  · simp [appendCalls, appendCalls_append, appendCalls_map]
  · simp

/-- Witness for C4: credentials rejected on the first append with a
second chunk pending — the run ends `fatalAuth` with exit status 1. -/
theorem auth_error_fatal_w :
    (run_container_and_log envW4 "g" "s").2 = RunResult.fatalAuth
    ∧ exitCode (run_container_and_log envW4 "g" "s").2 = 1 := by
  have h := auth_error_fatal envW4 "g" "s" [] [0x61, 0x0a] [[0x62, 0x0a]] []
    ['a', lfChar] rfl rfl rfl rfl rfl
    (fun i hi => absurd hi (by simp)) (by decide) rfl
  exact ⟨h.1, h.2.2.2⟩

/-- C5: an interrupt observed at a pull — here after `pre.length`
successfully forwarded chunks, with the chunks of `rest` still unread —
prints the user-visible notice, invokes `container.stop`, makes no
append call after the interrupt, and the process exits with status 0. -/
theorem interrupt_stops_container (env : Env) (g s : String)
    (pre rest : List (List Nat)) (texts : List (List Char))
    (hG : create_or_get_log_group env.groupApi = Except.ok ())
    (hS : create_or_get_log_stream env.streamApi = Except.ok ())
    (hchunks : env.chunks = pre ++ rest)
    (hI : env.interruptAt = some pre.length)
    (hpre : decodeAll pre = some texts)
    (hok : ∀ i, i < pre.length → env.appendResult i = AppendResult.ok) :
    (run_container_and_log env g s).1 =
      Event.createLogGroup g :: Event.createLogStream g s ::
        Event.runContainer ::
        ((texts.map fun t => Event.putLogEvents g s (splitlines t)) ++
          [Event.printMsg interruptNotice, Event.containerStop])
    ∧ (run_container_and_log env g s).2 = RunResult.interrupted
    ∧ exitCode (run_container_and_log env g s).2 = 0
    ∧ appendCalls (run_container_and_log env g s).1 = texts.map splitlines := by
  have hfront := forwardLoop_front env g s pre texts rest 0 0 hpre
    (fun j hj => by rw [hI]; simp; omega) (fun i hi => by simpa using hok i hi)
  rw [forwardLoop_interrupt env g s rest (0 + pre.length) (0 + pre.length)
    (by simp [hI])] at hfront
  rw [run_eq env g s hG hS, hchunks, hfront]
  refine ⟨by simp [interruptedResult], rfl, rfl, ?_⟩
  · simp [interruptedResult, appendCalls, appendCalls_append, appendCalls_map]

/-- Witness for C5: an interrupt at the very first pull, one chunk
still unread — stop is invoked, nothing is appended, exit status 0. -/
theorem interrupt_stops_container_w :
    (run_container_and_log envW5 "g" "s").2 = RunResult.interrupted
    ∧ appendCalls (run_container_and_log envW5 "g" "s").1 = List.map splitlines [] := by
  have h := interrupt_stops_container envW5 "g" "s" [] [[0x61]] [] rfl rfl rfl rfl rfl
    (fun i hi => absurd hi (by simp))
  exact ⟨h.2.1, h.2.2.2⟩

/-- C6: a chunk ending mid-line is forwarded as if the partial line were
complete: a break-free chunk text `w` is one log event `w`, a chunk text
`v ++ "\n"` is one log event `v`, and a run delivering the two as
successive chunks appends them as two separate log events even though
they form one logical line `w ++ v`. -/
theorem trailing_line_forwarded_complete (w v : List Char) (b1 b2 : List Nat)
    (env : Env) (g s : String)
    (hw : w ≠ []) (hwn : ∀ x ∈ w, isLineBreak x = false)
    (hvn : ∀ x ∈ v, isLineBreak x = false)
    (hd1 : utf8Decode b1 = some w)
    (hd2 : utf8Decode b2 = some (v ++ [lfChar]))
    (hc : env.chunks = [b1, b2])
    (hI : env.interruptAt = none)
    (hA : ∀ i, env.appendResult i = AppendResult.ok)
    (hG : create_or_get_log_group env.groupApi = Except.ok ())
    (hS : create_or_get_log_stream env.streamApi = Except.ok ()) :
    splitlines w = [w] ∧ splitlines (v ++ [lfChar]) = [v]
    ∧ appendCalls (run_container_and_log env g s).1 = [[w], [v]] := by
  have h1 := splitlines_nobreak w hw hwn
  have h2 := splitlines_line v hvn
  refine ⟨h1, h2, ?_⟩
  have hD : decodeAll env.chunks = some [w, v ++ [lfChar]] := by
    rw [hc]
    simp [decodeAll, hd1, hd2]
  have hfront := forwardLoop_front env g s env.chunks [w, v ++ [lfChar]] [] 0 0 hD
    (fun j _ => by simp [hI]) (fun i _ => hA (0 + i))
  rw [List.append_nil, forwardLoop_nil env g s (0 + env.chunks.length)
    (0 + env.chunks.length) (by simp [hI])] at hfront
  rw [run_eq env g s hG hS, hfront]
  simp [appendCalls, appendCalls_append, appendCalls_map, h1, h2]

/-- Witness for C6: the logical line `"ab"` split as chunks `b"a"` and
`b"b\n"` is forwarded as the two events `["a"]` then `["b"]`. -/
theorem trailing_line_forwarded_complete_w :
    splitlines ['a'] = [['a']] ∧ splitlines (['b'] ++ [lfChar]) = [['b']]
    ∧ appendCalls (run_container_and_log envW6 "g" "s").1 = [[['a']], [['b']]] :=
  trailing_line_forwarded_complete ['a'] ['b'] [0x61] [0x62, 0x0a] envW6 "g" "s"
    (by decide) (by decide) (by decide) (by decide) (by decide) rfl rfl
    (fun _ => rfl) rfl rfl

/-- C9: the forwarding loop is not total over arbitrary byte chunks:
when a reachable chunk is not valid UTF-8 — such as `b"\xc3"`, the
first byte of a split multibyte character — the decode error is
uncaught: no append is made for that chunk, the run aborts with a
non-zero status, and the container is not stopped; and whenever every
delivered chunk is valid UTF-8, that error branch is unreachable. -/
theorem invalid_utf8_aborts :
    (∀ (env : Env) (g s : String) (pre : List (List Nat)) (c : List Nat)
        (rest : List (List Nat)) (texts : List (List Char)),
      create_or_get_log_group env.groupApi = Except.ok () →
      create_or_get_log_stream env.streamApi = Except.ok () →
      env.chunks = pre ++ c :: rest →
      env.interruptAt = none →
      decodeAll pre = some texts →
      (∀ i, i < pre.length → env.appendResult i = AppendResult.ok) →
      utf8Decode c = none →
      (run_container_and_log env g s).2 = RunResult.uncaughtDecode
        ∧ Event.containerStop ∉ (run_container_and_log env g s).1
        ∧ appendCalls (run_container_and_log env g s).1 = texts.map splitlines
        ∧ exitCode (run_container_and_log env g s).2 = 1)
    ∧ (∀ (env : Env) (g s : String),
        (∀ ch ∈ env.chunks, utf8Decode ch ≠ none) →
        (run_container_and_log env g s).2 ≠ RunResult.uncaughtDecode)
    ∧ utf8Decode [0xc3] = none := by
  refine ⟨?_, ?_, rfl⟩
  · intro env g s pre c rest texts hG hS hchunks hI hpre hok hbad
    have hfront := forwardLoop_front env g s pre texts (c :: rest) 0 0 hpre
      (fun j _ => by simp [hI]) (fun i hi => by simpa using hok i hi)
    rw [forwardLoop_cons_bad env g s c rest (0 + pre.length) (0 + pre.length)
      (by simp [hI]) hbad] at hfront
    rw [run_eq env g s hG hS, hchunks, hfront]
    refine ⟨rfl, ?_, ?_, rfl⟩
    · simp [containerStop_not_mem_map]
    · simp [appendCalls, appendCalls_append, appendCalls_map]
  · intro env g s hv
    have h := forwardLoop_no_decode env g s env.chunks 0 0 hv
    rw [run_container_and_log]
    cases hG : create_or_get_log_group env.groupApi with
    | error e => simp
    | ok u =>
      cases hS : create_or_get_log_stream env.streamApi with
      | error e => simp
      | ok v => simpa using h

/-- Witness for C9: the single chunk `b"\xc3"` aborts the run with an
uncaught decode error and the container is never stopped. -/
theorem invalid_utf8_aborts_w :
    (run_container_and_log envW9 "g" "s").2 = RunResult.uncaughtDecode
    ∧ Event.containerStop ∉ (run_container_and_log envW9 "g" "s").1 := by
  have h := invalid_utf8_aborts.1 envW9 "g" "s" [] [0xc3] [] [] rfl rfl rfl rfl rfl
    (fun i hi => absurd hi (by simp)) rfl
  exact ⟨h.1, h.2.1⟩

/-- C10: chunk splitting uses every Python universal line boundary, not
just LF: splitting break-free text around any single boundary character
yields the two surrounding segments as separate log events with the
boundary character excluded; CR, VT, FF, FS, GS, RS, NEL, LINE
SEPARATOR and PARAGRAPH SEPARATOR are all boundaries; and the append
call for a delivered chunk carries exactly `splitlines` of its decoded
text. -/
theorem splitlines_universal_boundaries :
    (∀ (u : List Char) (c : Char) (v : List Char),
      (∀ x ∈ u, isLineBreak x = false) →
      (∀ x ∈ v, isLineBreak x = false) → v ≠ [] → isLineBreak c = true →
      splitlines (u ++ c :: v) = [u, v])
    ∧ (isLineBreak (Char.ofNat 0x0d) = true ∧ isLineBreak (Char.ofNat 0x0b) = true
        ∧ isLineBreak (Char.ofNat 0x0c) = true ∧ isLineBreak (Char.ofNat 0x1c) = true
        ∧ isLineBreak (Char.ofNat 0x1d) = true ∧ isLineBreak (Char.ofNat 0x1e) = true
        ∧ isLineBreak (Char.ofNat 0x85) = true ∧ isLineBreak (Char.ofNat 0x2028) = true
        ∧ isLineBreak (Char.ofNat 0x2029) = true)
    ∧ (∀ (env : Env) (g s : String) (c : List Nat) (rest : List (List Nat))
        (p a : Nat) (t : List Char),
      env.interruptAt ≠ some p → utf8Decode c = some t →
      (forwardLoop env g s (c :: rest) p a).1.head? =
        some (Event.putLogEvents g s (splitlines t))) := by
  refine ⟨fun u c v hu hv hvne hc => splitlines_mid_break u c v hu hv hvne hc,
    by decide, ?_⟩
  intro env g s c rest p a t h hd
  cases ha : env.appendResult a with
  | ok => rw [forwardLoop_cons_ok env g s c rest p a t h hd ha]; rfl
  | noCredentials => rw [forwardLoop_cons_auth env g s c rest p a t h hd ha]; rfl
  | sinkError => rw [forwardLoop_cons_sink env g s c rest p a t h hd ha]; rfl

/-- Witness for C10: a carriage return inside `"a\rb"` splits it into
the two log events `"a"` and `"b"`. -/
theorem splitlines_universal_boundaries_w :
    splitlines (['a'] ++ Char.ofNat 0x0d :: ['b']) = [['a'], ['b']] :=
  splitlines_universal_boundaries.1 ['a'] (Char.ofNat 0x0d) ['b']
    (by decide) (by decide) (by decide) (by decide)
